import Mathlib

/-!
Verification of the Smart Quoting Agent core (src/script.py): field extraction
from certificate text (`extract_coi_data`) and the eligibility / pricing rules
(`check_eligibility`).

Modelling conventions:
* Python floats are modelled as exact rationals (ℚ); `round(x, 2)` is modelled
  by `pyRound2`, Python's round-half-to-even at two decimal places.
* Python `datetime` values are modelled as a day ordinal (proleptic Gregorian,
  1970-01-01 = 0) plus microseconds within the day; `timedelta.days` is the
  floor division `Int.fdiv` of the microsecond difference by a day's
  microseconds, exactly as `datetime` subtraction normalises.
* Text is a `List Char`; the specific regular expressions of the source are
  implemented directly as scanners with Python `re.search` semantics
  (leftmost match, lazy/greedy quantifiers as written in each pattern).
* A Python dict field that may be missing, `None`, or a value is modelled as
  `Option (Option α)`: `none` = key absent, `some none` = key bound to `None`.
-/

namespace SmartQuote

/-! ## Numeric model: Python round(x, 2) -/

/-- Round a rational to the nearest integer, ties to even
(Python's `round` tie-breaking rule). -/
def roundHalfEven (x : ℚ) : ℤ :=
  let n := ⌊x⌋
  let f := x - n
  if f < 1/2 then n
  else if 1/2 < f then n + 1
  else if n % 2 = 0 then n else n + 1

/-- Python `round(x, 2)` on the exact-rational model of floats. -/
def pyRound2 (x : ℚ) : ℚ := (roundHalfEven (x * 100) : ℚ) / 100

/-! ## Date model: strptime %m/%d/%Y and datetime subtraction -/

/-- Gregorian leap year, as `datetime` uses. -/
def isLeap (y : ℤ) : Bool := y % 4 = 0 && (y % 100 ≠ 0 || y % 400 = 0)

/-- Length of month `m` in year `y`. -/
def daysInMonth (y m : ℤ) : ℤ :=
  if m = 2 then (if isLeap y then 29 else 28)
  else if m = 4 ∨ m = 6 ∨ m = 9 ∨ m = 11 then 30
  else 31

/-- Day ordinal of a proleptic Gregorian calendar date, with 1970-01-01 = 0
(the standard civil-from-date computation; matches `datetime.toordinal` up to
the constant offset, so date differences agree with `datetime`). -/
def daysFromCivil (y m d : ℤ) : ℤ :=
  let y' := if m ≤ 2 then y - 1 else y
  let era := y'.fdiv 400
  let yoe := y' - era * 400
  let mp := (m + 9) % 12
  let doy := (153 * mp + 2).fdiv 5 + d - 1
  let doe := yoe * 365 + yoe.fdiv 4 - yoe.fdiv 100 + doy
  era * 146097 + doe - 719468

def digitVal (c : Char) : ℤ := (c.toNat : ℤ) - 48

/-- Candidate parses of `strptime`'s `%m` field
(regex `1[0-2]|0[1-9]|[1-9]`), each with the remaining input, in the
regex engine's backtracking order. -/
def monthCands : List Char → List (ℤ × List Char)
  | c1 :: c2 :: rest =>
    (if c1 = '1' ∧ '0' ≤ c2 ∧ c2 ≤ '2' then [(10 + digitVal c2, rest)] else []) ++
    (if c1 = '0' ∧ '1' ≤ c2 ∧ c2 ≤ '9' then [(digitVal c2, rest)] else []) ++
    (if '1' ≤ c1 ∧ c1 ≤ '9' then [(digitVal c1, c2 :: rest)] else [])
  | [c1] => if '1' ≤ c1 ∧ c1 ≤ '9' then [(digitVal c1, [])] else []
  | [] => []

/-- Candidate parses of `strptime`'s `%d` field
(regex `3[01]|[12]\d|0[1-9]|[1-9]`). -/
def dayCands : List Char → List (ℤ × List Char)
  | c1 :: c2 :: rest =>
    (if c1 = '3' ∧ ('0' ≤ c2 ∧ c2 ≤ '1') then [(30 + digitVal c2, rest)] else []) ++
    (if ('1' ≤ c1 ∧ c1 ≤ '2') ∧ c2.isDigit then [(10 * digitVal c1 + digitVal c2, rest)] else []) ++
    (if c1 = '0' ∧ '1' ≤ c2 ∧ c2 ≤ '9' then [(digitVal c2, rest)] else []) ++
    (if '1' ≤ c1 ∧ c1 ≤ '9' then [(digitVal c1, c2 :: rest)] else [])
  | [c1] => if '1' ≤ c1 ∧ c1 ≤ '9' then [(digitVal c1, [])] else []
  | [] => []

/-- Model of `strptime`'s `%Y` field: exactly four digits, and (because `_strptime`
rejects unconverted trailing data) nothing may follow. -/
def year4 : List Char → Option ℤ
  | [a, b, c, d] =>
    if a.isDigit ∧ b.isDigit ∧ c.isDigit ∧ d.isDigit then
      some (1000 * digitVal a + 100 * digitVal b + 10 * digitVal c + digitVal d)
    else none
  | _ => none

/-- The regex phase of `strptime(s, '%m/%d/%Y')`: first full match of
month `/` day `/` four-digit year over the whole string. -/
def parseMDY (cs : List Char) : Option (ℤ × ℤ × ℤ) :=
  (monthCands cs).findSome? fun mc =>
    match mc.2 with
    | '/' :: r2 =>
      (dayCands r2).findSome? fun dc =>
        match dc.2 with
        | '/' :: r4 => (year4 r4).map fun y => (mc.1, dc.1, y)
        | _ => none
    | _ => none

/-- Model of `datetime.strptime(s, '%m/%d/%Y')` as a day ordinal: the regex phase,
then the `datetime` constructor's validity checks (year ≥ 1, day within the
month); `none` models the raised `ValueError`. -/
def parseDate (s : String) : Option ℤ :=
  match parseMDY s.toList with
  | some (m, d, y) =>
    if 1 ≤ y ∧ d ≤ daysInMonth y m then some (daysFromCivil y m d) else none
  | none => none

/-- A `datetime` instant: day ordinal plus microseconds within the day. -/
structure Now where
  days : ℤ
  micros : ℕ

/-- Microseconds per day. -/
def usecPerDay : ℤ := 86400000000

/-- Model of `(exp_date - datetime.now()).days` where `exp_date` is midnight of day
ordinal `e`: the floor of the signed difference in days, exactly as Python's
`timedelta` normalisation yields. -/
def daysUntilExpiry (e : ℤ) (now : Now) : ℤ :=
  (e * usecPerDay - (now.days * usecPerDay + now.micros)).fdiv usecPerDay

/-! ## Data model -/

/-- The dict produced by `extract_coi_data` and consumed by
`check_eligibility`.  Outer `Option` = key presence, inner `Option` = the
Python value may be `None`. -/
structure ExtractedData where
  general_aggregate : Option (Option ℚ)
  expiration_date : Option (Option String)
  premium : Option (Option ℚ)
  extraction_success : Bool
deriving Repr, DecidableEq

/-- The `results` dict of `check_eligibility`. -/
structure EligibilityResults where
  eligible : Bool
  reason : String
  our_price : ℚ
  savings : ℚ
  savings_percent : ℚ
deriving Repr, DecidableEq

/-! ## Reason strings -/

/-- Decimal digits of `n`, most significant first. -/
def natDigits (n : ℕ) : List Char := Nat.toDigits 10 n

/-- Insert thousands separators into a digit list (digits given most
significant first), as Python's `format(x, ',')` does. -/
def commaGroup (ds : List Char) : List Char :=
  if ds.length ≤ 3 then ds
  else commaGroup (ds.take (ds.length - 3)) ++ ',' :: ds.drop (ds.length - 3)
termination_by ds.length
decreasing_by simp [List.length_take]; omega

/-- Fractional decimal digits of `q ∈ [0,1)`, up to `fuel` places, dropping
trailing zeros (empty when `q = 0`). -/
def fracDigits (fuel : ℕ) (q : ℚ) : List Char :=
  match fuel with
  | 0 => []
  | fuel + 1 =>
    if q = 0 then []
    else
      let q10 := q * 10
      Char.ofNat (48 + (⌊q10⌋).toNat) :: fracDigits fuel (q10 - ⌊q10⌋)

/-- Python `f"{x:,}"` for a float holding the exact decimal value `q`:
comma-grouped integer part, then the fractional digits (a single `0` when the
value is integral, as float formatting always shows one decimal). -/
def formatFloatComma (q : ℚ) : String :=
  let sign := if q < 0 then "-" else ""
  let a := |q|
  let ip := commaGroup (natDigits (⌊a⌋).toNat)
  let fp := fracDigits 30 (a - ⌊a⌋)
  sign ++ ⟨ip⟩ ++ "." ++ (if fp.isEmpty then "0" else ⟨fp⟩)

def unableReason : String := "Unable to determine General Aggregate limit"

/-- The rejection reason naming the aggregate value (comma-formatted, as the
f-string does) and the $2,000,000 maximum. -/
def aggregateReason (g : ℚ) : String :=
  "General Aggregate $" ++ formatFloatComma g ++ " exceeds our maximum limit of $2,000,000"

/-- The rejection reason naming the computed day count and the 30-day
minimum, as the f-string builds it. -/
def expiryReason (d : ℤ) : String :=
  "Policy expires in " ++ toString d ++ " days (minimum 30 days required)"

def acceptReason : String :=
  "Eligible for quote - we can match your coverage and save you money!"

/-! ## check_eligibility -/

/-- The pricing step (lines 153-168): fallback premium 3500.0 when the
premium is `None`, 10% discount, both outputs rounded to 2 places. -/
def acceptQuote (d : ExtractedData) : EligibilityResults :=
  let current : ℚ :=
    match d.premium.getD (some 0) with
    | none => 3500
    | some p => p
  let our_price := current * (9/10)
  let savings := current - our_price
  { eligible := true
    reason := acceptReason
    our_price := pyRound2 our_price
    savings := pyRound2 savings
    savings_percent := 10 }

/-- The defaulted zero `results` dict. -/
def initResults : EligibilityResults :=
  { eligible := false, reason := "", our_price := 0, savings := 0, savings_percent := 0 }

/-- Model of `check_eligibility(extracted_data)` (lines 117-170), with the current
instant passed explicitly in place of `datetime.now()`. -/
def check_eligibility (d : ExtractedData) (now : Now) : EligibilityResults :=
  match d.general_aggregate.getD (some 0) with
  | none => { initResults with reason := unableReason }
  | some ga =>
    if ga > 2000000 then { initResults with reason := aggregateReason ga }
    else
      match d.expiration_date.getD none with
      | some s =>
        if s ≠ "" then
          match parseDate s with
          | some e =>
            let du := daysUntilExpiry e now
            if du < 30 then { initResults with reason := expiryReason du }
            else acceptQuote d
          | none => acceptQuote d
        else acceptQuote d
      | none => acceptQuote d

/-- The effective premium the pricing step uses: `get('premium', 0)`, then
`None` replaced by 3500.0. -/
def effPremium (d : ExtractedData) : ℚ :=
  match d.premium.getD (some 0) with
  | none => 3500
  | some p => p

/-- The expiry gate as a predicate: `true` iff lines 140-151 fall through to
the pricing step. -/
def expiryOk (d : ExtractedData) (now : Now) : Bool :=
  match d.expiration_date.getD none with
  | some s =>
    if s ≠ "" then
      match parseDate s with
      | some e => !(daysUntilExpiry e now < 30)
      | none => true
    else true
  | none => true

/-! ## Extraction: pattern scanners

Each regex of `extract_coi_data` is implemented directly with `re.search`
semantics: scan start positions left to right; at each start follow the
pattern's own quantifier semantics (`.*?` lazy, classes greedy,
alternations in written order with backtracking). -/

/-- ASCII lower-casing, the effect of `re.IGNORECASE` on these patterns. -/
def lowerAscii (c : Char) : Char :=
  if 'A' ≤ c ∧ c ≤ 'Z' then Char.ofNat (c.toNat + 32) else c

/-- Match a literal pattern case-insensitively at the head of the input,
returning the remaining input. -/
def ciStrip : List Char → List Char → Option (List Char)
  | [], cs => some cs
  | _ :: _, [] => none
  | p :: ps, c :: cs => if lowerAscii c = lowerAscii p then ciStrip ps cs else none

/-- Match a literal pattern case-sensitively at the head of the input,
returning the remaining input. -/
def litStrip : List Char → List Char → Option (List Char)
  | [], cs => some cs
  | _ :: _, [] => none
  | p :: ps, c :: cs => if c = p then litStrip ps cs else none

/-- Model of `bool(re.search(lit, text))` for a literal pattern. -/
def containsLit (lit : List Char) : List Char → Bool
  | [] => (litStrip lit []).isSome
  | c :: cs => (litStrip lit (c :: cs)).isSome || containsLit lit cs

/-- Case-insensitive equality of two strings, up to ASCII case. -/
def ciEq : List Char → List Char → Bool
  | [], [] => true
  | a :: as, b :: bs => lowerAscii a = lowerAscii b && ciEq as bs
  | _, _ => false

def isCurrencyChar (c : Char) : Bool := c.isDigit || c = ','

/-- First match of `\$[\d,]+` at or after the current position, any
characters in between (`.*?` under `re.DOTALL`).  Returns the whole token
including the `$`. -/
def dollarIntTokenFrom : List Char → Option (List Char)
  | [] => none
  | '$' :: cs =>
    let run := cs.takeWhile isCurrencyChar
    if run.isEmpty then dollarIntTokenFrom cs else some ('$' :: run)
  | _ :: cs => dollarIntTokenFrom cs

def gaLabel : List Char := "GENERAL AGGREGATE".toList

/-- Model of `re.search(r'GENERAL AGGREGATE.*?(\$[\d,]+)', text, re.IGNORECASE |
re.DOTALL)`: the captured group of the leftmost match. -/
def gaScan : List Char → Option (List Char)
  | [] => none
  | c :: cs =>
    match ciStrip gaLabel (c :: cs) with
    | some rest =>
      match dollarIntTokenFrom rest with
      | some tok => some tok
      | none => gaScan cs
    | none => gaScan cs

/-- Model of `.replace('$', '').replace(',', '')`. -/
def stripCurrency (tok : List Char) : List Char :=
  tok.filter fun c => c ≠ '$' ∧ c ≠ ','

/-- Decimal value of a digit list, most significant first. -/
def natOfDigits (ds : List Char) : ℕ :=
  ds.foldl (fun acc c => acc * 10 + (c.toNat - 48)) 0

/-- Python `float(s)` on the digit/dot strings the extractor builds:
`a`, `a.b`, `.b` or `a.` with `a`, `b` digit runs, at least one digit
overall; anything else raises (`none`). -/
def parseFloat (cs : List Char) : Option ℚ :=
  let a := cs.takeWhile fun c => c ≠ '.'
  let b' := cs.drop a.length
  if a.all Char.isDigit then
    match b' with
    | [] => if a.isEmpty then none else some (natOfDigits a)
    | '.' :: b =>
      if b.all Char.isDigit ∧ ¬(a.isEmpty ∧ b.isEmpty) then
        some ((natOfDigits a : ℚ) + (natOfDigits b : ℚ) / (10 : ℚ) ^ b.length)
      else none
    | _ => none
  else none

/-! ### Expiration date cascade (lines 47-66) -/

/-- Greedy `\d{1,2}`: two digits if possible, then one, each with the
remaining input, in backtracking order. -/
def take2or1 : List Char → List (List Char × List Char)
  | c1 :: c2 :: rest =>
    (if c1.isDigit ∧ c2.isDigit then [([c1, c2], rest)] else []) ++
    (if c1.isDigit then [([c1], c2 :: rest)] else [])
  | [c1] => if c1.isDigit then [([c1], [])] else []
  | [] => []

/-- Exactly four digits, `\d{4}`. -/
def take4 : List Char → Option (List Char × List Char)
  | a :: b :: c :: d :: rest =>
    if a.isDigit ∧ b.isDigit ∧ c.isDigit ∧ d.isDigit then some ([a, b, c, d], rest)
    else none
  | _ => none

/-- All parses of `\d{1,2}/\d{1,2}/\d{4}` at the current position, greedy
alternatives first, each as (matched text, remaining input). -/
def dateCandsAt (cs : List Char) : List (List Char × List Char) :=
  (take2or1 cs).flatMap fun m =>
    match m.2 with
    | '/' :: r2 =>
      (take2or1 r2).flatMap fun d =>
        match d.2 with
        | '/' :: r4 =>
          match take4 r4 with
          | some y => [(m.1 ++ '/' :: d.1 ++ '/' :: y.1, y.2)]
          | none => []
        | _ => []
    | _ => []

/-- The greedy-first date match at the current position. -/
def matchDateAt (cs : List Char) : Option (List Char) :=
  (dateCandsAt cs).head?.map Prod.fst

def expLit : List Char := "EXP".toList

/-- Lazy `.*?(\d{1,2}/\d{1,2}/\d{4})` without `re.DOTALL`: earliest date
match reachable without crossing a newline. -/
def dateOnLine : List Char → Option (List Char)
  | [] => none
  | c :: cs =>
    match matchDateAt (c :: cs) with
    | some m => some m
    | none => if c = '\n' then none else dateOnLine cs

/-- Model of `re.search(r'EXP.*?(\d{1,2}/\d{1,2}/\d{4})', text)` (case-sensitive,
no DOTALL): captured group of the leftmost match. -/
def expPat1 : List Char → Option (List Char)
  | [] => none
  | c :: cs =>
    match litStrip expLit (c :: cs) with
    | some rest =>
      match dateOnLine rest with
      | some m => some m
      | none => expPat1 cs
    | none => expPat1 cs

/-- Lazy `.*?EXP` without DOTALL: is `EXP` reachable without crossing a
newline? -/
def expOnLine : List Char → Bool
  | [] => false
  | c :: cs =>
    if (litStrip expLit (c :: cs)).isSome then true
    else if c = '\n' then false
    else expOnLine cs

/-- Model of `re.search(r'(\d{1,2}/\d{1,2}/\d{4}).*?EXP', text)`: captured group of
the leftmost match, trying the date's greedy alternatives in backtracking
order at each start. -/
def expPat2 : List Char → Option (List Char)
  | [] => none
  | c :: cs =>
    match (dateCandsAt (c :: cs)).findSome?
        (fun m => if expOnLine m.2 then some m.1 else none) with
    | some m => some m
    | none => expPat2 cs

def date2026 : List Char := "01/01/2026".toList

/-- Model of `re.search(r'(\d{1,2}/\d{1,2}/\d{4})', text)`: first date-shaped token
anywhere. -/
def anyDate : List Char → Option (List Char)
  | [] => none
  | c :: cs =>
    match matchDateAt (c :: cs) with
    | some m => some m
    | none => anyDate cs

/-- The four-pattern expiration cascade (lines 49-63), stopping at the first
pattern that matches; pattern 3 is the literal `01/01/2026` whose whole
match is taken (`group(0)`, as it has no capture group). -/
def extractExpiration (text : List Char) : Option String :=
  match expPat1 text with
  | some m => some ⟨m⟩
  | none =>
    match expPat2 text with
    | some m => some ⟨m⟩
    | none =>
      if containsLit date2026 text then some ⟨date2026⟩
      else (anyDate text).map fun m => ⟨m⟩

/-! ### Premium cascade (lines 68-105) -/

/-- Match `\$[\d,]+\.?\d*` at the current position: `$`, a nonempty greedy
digit/comma run, an optional dot, a greedy digit run.  Returns the token and
the remaining input. -/
def currencyTokAt : List Char → Option (List Char × List Char)
  | '$' :: cs =>
    let run := cs.takeWhile isCurrencyChar
    if run.isEmpty then none
    else
      match cs.drop run.length with
      | '.' :: cs2 =>
        let frac := cs2.takeWhile Char.isDigit
        some ('$' :: run ++ '.' :: frac, cs2.drop frac.length)
      | rest1 => some ('$' :: run, rest1)
  | _ => none

/-- Lazy `.*?(\$[\d,]+\.?\d*)` without DOTALL: earliest currency token
reachable without crossing a newline. -/
def currencyOnLine : List Char → Option (List Char)
  | [] => none
  | c :: cs =>
    match currencyTokAt (c :: cs) with
    | some t => some t.1
    | none => if c = '\n' then none else currencyOnLine cs

/-- Model of `re.search(label + r'.*?(\$[\d,]+\.?\d*)', text, re.IGNORECASE)`:
captured group of the leftmost match (used for the `TOTAL ANNUAL PREMIUM`
and `PREMIUM` labels). -/
def premLabelScan (label : List Char) : List Char → Option (List Char)
  | [] => none
  | c :: cs =>
    match ciStrip label (c :: cs) with
    | some rest =>
      match currencyOnLine rest with
      | some tok => some tok
      | none => premLabelScan label cs
    | none => premLabelScan label cs

def annualLit : List Char := "ANNUAL".toList

/-- Lazy `.*?ANNUAL` without DOTALL, case-insensitive. -/
def annualOnLine : List Char → Bool
  | [] => false
  | c :: cs =>
    if (ciStrip annualLit (c :: cs)).isSome then true
    else if c = '\n' then false
    else annualOnLine cs

/-- Model of `re.search(r'(\$[\d,]+\.?\d*).*?ANNUAL', text, re.IGNORECASE)`:
captured group of the leftmost match.  (The token's character classes are
disjoint from `A`/newline, so greedy matching needs no backtracking here.) -/
def premAnnualScan : List Char → Option (List Char)
  | [] => none
  | c :: cs =>
    match currencyTokAt (c :: cs) with
    | some t => if annualOnLine t.2 then some t.1 else premAnnualScan cs
    | none => premAnnualScan cs

def lit3500 : List Char := "$3,500".toList

/-- Strip currency characters and parse, `none` on `ValueError`. -/
def tokValue (tok : List Char) : Option ℚ := parseFloat (stripCurrency tok)

/-- The four-pattern premium cascade (lines 69-88): first pattern whose
match also parses as a float wins; a match whose parse raises is skipped
(`except: continue`). -/
def premiumCascade (text : List Char) : Option ℚ :=
  match (premLabelScan "TOTAL ANNUAL PREMIUM".toList text).bind tokValue with
  | some v => some v
  | none =>
    match (premLabelScan "PREMIUM".toList text).bind tokValue with
    | some v => some v
    | none =>
      match (premAnnualScan text).bind tokValue with
      | some v => some v
      | none =>
        if containsLit lit3500 text then tokValue lit3500 else none

theorem currencyTokAt_rest_length {cs : List Char} {t : List Char × List Char}
    (h : currencyTokAt cs = some t) : t.2.length < cs.length := by
  unfold currencyTokAt at h
  split at h
  case _ cs' =>
    dsimp only [] at h
    split at h
    · exact absurd h (by simp)
    · split at h
      case _ cs2 heq =>
        cases h
        have hlen : cs2.length + 1 ≤ cs'.length := by
          have := congrArg List.length heq
          simp only [List.length_drop, List.length_cons] at this
          omega
        have hd : (cs2.drop (cs2.takeWhile Char.isDigit).length).length ≤ cs2.length := by
          simp [List.length_drop]
        simp only [List.length_cons]
        omega
      case _ =>
        cases h
        have : (cs'.drop (cs'.takeWhile isCurrencyChar).length).length ≤ cs'.length := by
          simp [List.length_drop]
        simp only [List.length_cons]
        omega
  case _ => exact absurd h (by simp)

/-- Model of `re.findall(r'(\$[\d,]+\.?\d*)', text)`, fuelled for structural
recursion: every match consumes at least one character
(`currencyTokAt_rest_length`), so fuel `cs.length` is never exhausted and
the scan is the plain unbounded one: all non-overlapping currency tokens,
left to right, each matched greedily. -/
def findAllCurrencyAux : ℕ → List Char → List (List Char)
  | 0, _ => []
  | _, [] => []
  | fuel + 1, c :: cs =>
    match currencyTokAt (c :: cs) with
    | some t => t.1 :: findAllCurrencyAux fuel t.2
    | none => findAllCurrencyAux fuel cs

/-- All non-overlapping currency-shaped tokens of the text, in order. -/
def findAllCurrency (cs : List Char) : List (List Char) :=
  findAllCurrencyAux cs.length cs

/-- The fallback sweep (lines 90-105): take the first token that parses and
lies in the inclusive range [1000, 10000]; parse failures and out-of-range
values are skipped. -/
def sweepLoop : List (List Char) → Option ℚ
  | [] => none
  | tok :: rest =>
    match tokValue tok with
    | some v => if 1000 ≤ v ∧ v ≤ 10000 then some v else sweepLoop rest
    | none => sweepLoop rest

/-- The premium field extractor: the cascade, then the sweep; `none` means
the preset default is kept. -/
def extractPremium (text : List Char) : Option ℚ :=
  match premiumCascade text with
  | some v => some v
  | none => sweepLoop (findAllCurrency text)

/-- The qualifying value of a currency token under the sweep's test: its
parsed value when that lies in [1000, 10000], else `none` (also when the
parse raises). -/
def qualTok (tok : List Char) : Option ℚ :=
  match tokValue tok with
  | some v => if 1000 ≤ v ∧ v ≤ 10000 then some v else none
  | none => none

/-- The qualifying value of the `i`-th currency token of `text` (none when
there is no `i`-th token). -/
def qualAt (text : List Char) (i : ℕ) : Option ℚ :=
  ((findAllCurrency text).get? i).bind qualTok

/-! ### extract_coi_data (lines 6-115), successful-text path -/

/-- The defaults of `sample_data` (lines 11-16). -/
def defaultData : ExtractedData :=
  { general_aggregate := some (some 2)
    expiration_date := some (some "08/08/2026")
    premium := some (some 3)
    extraction_success := true }

/-- Model of `extract_coi_data` on extracted text: the General Aggregate pattern
(lines 37-45) whose matched amount, when unparseable, raises out to the
outer handler (lines 111-113, `extraction_success = False`, later fields
untouched); then the expiration cascade and the premium cascade + sweep,
each keeping its preset default on failure. -/
def extract_coi_data (text : List Char) : ExtractedData :=
  match gaScan text with
  | some tok =>
    match parseFloat (stripCurrency tok) with
    | some v =>
      { general_aggregate := some (some v)
        expiration_date := some (some ((extractExpiration text).getD "08/08/2026"))
        premium := some (some ((extractPremium text).getD 3))
        extraction_success := true }
    | none => { defaultData with extraction_success := false }
  | none =>
    { general_aggregate := some (some 2)
      expiration_date := some (some ((extractExpiration text).getD "08/08/2026"))
      premium := some (some ((extractPremium text).getD 3))
      extraction_success := true }

/-! ## Helper lemmas -/

theorem string_data_append (a b : String) : (a ++ b).data = a.data ++ b.data := rfl

theorem aggregateReason_head (g : ℚ) : (aggregateReason g).data.head? = some 'G' := rfl

theorem expiryReason_head (d : ℤ) : (expiryReason d).data.head? = some 'P' := rfl

theorem aggregateReason_ne_empty (g : ℚ) : aggregateReason g ≠ "" := by
  intro h
  have h2 : (aggregateReason g).data.head? = ("" : String).data.head? := by rw [h]
  rw [aggregateReason_head] at h2
  exact Option.noConfusion h2

theorem expiryReason_ne_empty (d : ℤ) : expiryReason d ≠ "" := by
  intro h
  have h2 : (expiryReason d).data.head? = ("" : String).data.head? := by rw [h]
  rw [expiryReason_head] at h2
  exact Option.noConfusion h2

theorem expiryReason_ne_unable (d : ℤ) : expiryReason d ≠ unableReason := by
  intro h
  have h2 : (expiryReason d).data.head? = unableReason.data.head? := by rw [h]
  rw [expiryReason_head] at h2
  exact absurd (Option.some.inj h2) (by decide)

theorem acceptReason_ne_unable : acceptReason ≠ unableReason := by decide

/-- If the decision came out eligible, it is exactly the pricing record. -/
theorem check_eligible_eq_accept (d : ExtractedData) (now : Now)
    (h : (check_eligibility d now).eligible = true) :
    check_eligibility d now = acceptQuote d := by
  rcases hga : d.general_aggregate.getD (some 0) with _ | ga
  · simp [check_eligibility, hga, initResults] at h
  · by_cases hgt : ga > 2000000
    · simp [check_eligibility, hga, hgt, initResults] at h
    · rcases hexp : d.expiration_date.getD none with _ | s
      · simp [check_eligibility, hga, hgt, hexp]
      · by_cases hs : s = ""
        · simp [check_eligibility, hga, hgt, hexp, hs]
        · rcases hp : parseDate s with _ | e
          · simp [check_eligibility, hga, hgt, hexp, hs, hp]
          · by_cases hdu : daysUntilExpiry e now < 30
            · simp [check_eligibility, hga, hgt, hexp, hs, hp, hdu, initResults] at h
            · simp [check_eligibility, hga, hgt, hexp, hs, hp, hdu]

theorem fdiv_lt_of_lt_mul {a b c : ℤ} (hb : 0 < b) (h : a < c * b) : a.fdiv b < c := by
  have h2 := Int.fmod_add_fdiv a b
  have h3 : 0 ≤ a.fmod b := Int.fmod_nonneg' a hb
  have h1 : b * a.fdiv b ≤ a := by linarith
  rw [mul_comm] at h
  exact lt_of_mul_lt_mul_left (by linarith) hb.le

theorem usecPerDay_pos : (0:ℤ) < usecPerDay := by norm_num [usecPerDay]

/-- When the expiry is at most 29 days ahead of the current day ordinal (at
any time of day), the computed day count is under 30. -/
theorem daysUntil_lt_30 {e : ℤ} {now : Now} (h : e ≤ now.days + 29) :
    daysUntilExpiry e now < 30 := by
  unfold daysUntilExpiry
  apply fdiv_lt_of_lt_mul usecPerDay_pos
  have hm : (0:ℤ) ≤ (now.micros : ℤ) := Int.ofNat_nonneg _
  have h2 : e * usecPerDay ≤ (now.days + 29) * usecPerDay :=
    mul_le_mul_of_nonneg_right h usecPerDay_pos.le
  nlinarith [usecPerDay_pos]

/-- At exactly midnight, an expiry 30 days ahead computes to exactly 30. -/
theorem daysUntil_exact_30 {e nd : ℤ} (h : e = nd + 30) :
    daysUntilExpiry e ⟨nd, 0⟩ = 30 := by
  unfold daysUntilExpiry
  have h2 : e * usecPerDay - (nd * usecPerDay + ((0:ℕ) : ℤ)) = 30 * usecPerDay := by
    rw [h]; push_cast; ring
  rw [h2, Int.mul_fdiv_cancel _ usecPerDay_pos.ne']

/-- Strictly after midnight, an expiry 30 days ahead computes to under 30. -/
theorem daysUntil_lt_30_of_pos_micros {e : ℤ} {now : Now} (h : e = now.days + 30)
    (hm : 0 < now.micros) : daysUntilExpiry e now < 30 := by
  unfold daysUntilExpiry
  apply fdiv_lt_of_lt_mul usecPerDay_pos
  have hm' : (0:ℤ) < (now.micros : ℤ) := by exact_mod_cast hm
  nlinarith [usecPerDay_pos]

/-! ## Claims -/

/-- C3: the aggregate gate boundary.  If the present general aggregate
exceeds 2,000,000 the decision is ineligible with a reason naming the value
and the $2,000,000 maximum; at exactly 2,000,000 the gate passes and the
decision is eligible whenever the expiry gate also passes. -/
theorem aggregate_gate_boundary (d : ExtractedData) (now : Now) :
    (∀ g : ℚ, d.general_aggregate.getD (some 0) = some g → 2000000 < g →
      (check_eligibility d now).eligible = false ∧
      (check_eligibility d now).reason =
        "General Aggregate $" ++ formatFloatComma g ++
          " exceeds our maximum limit of $2,000,000") ∧
    (d.general_aggregate.getD (some 0) = some 2000000 → expiryOk d now = true →
      (check_eligibility d now).eligible = true) := by
  constructor
  · intro g hg hgt
    simp only [check_eligibility, hg, gt_iff_lt, hgt, if_true]
    exact ⟨rfl, rfl⟩
  · intro hg hok
    have hgt : ¬ (2000000:ℚ) > 2000000 := lt_irrefl _
    rcases hexp : d.expiration_date.getD none with _ | s
    · simp [check_eligibility, hg, hgt, hexp, acceptQuote]
    · by_cases hs : s = ""
      · simp [check_eligibility, hg, hgt, hexp, hs, acceptQuote]
      · rcases hp : parseDate s with _ | e
        · simp [check_eligibility, hg, hgt, hexp, hs, hp, acceptQuote]
        · have hdu : ¬ daysUntilExpiry e now < 30 := by
            simp only [expiryOk, hexp, hs, ne_eq, not_false_iff, if_true, hp,
              Bool.not_eq_true'] at hok
            simp [of_decide_eq_false hok]
          simp [check_eligibility, hg, hgt, hexp, hs, hp, hdu, acceptQuote]

/-- Witness for C3 at a concrete input: a $5,000,000 aggregate is rejected
with the formatted reason, and a $2,000,000 aggregate with a far-future
expiry is eligible. -/
theorem aggregate_gate_boundary_witness :
    ((2000000:ℚ) < 5000000 ∧
      (check_eligibility ⟨some (some 5000000), none, none, true⟩ ⟨20454, 0⟩).eligible = false ∧
      (check_eligibility ⟨some (some 5000000), none, none, true⟩ ⟨20454, 0⟩).reason =
        "General Aggregate $" ++ formatFloatComma 5000000 ++
          " exceeds our maximum limit of $2,000,000") ∧
    (expiryOk ⟨some (some 2000000), some (some "12/31/2099"), none, true⟩ ⟨20454, 0⟩ = true ∧
      (check_eligibility ⟨some (some 2000000), some (some "12/31/2099"), none, true⟩
        ⟨20454, 0⟩).eligible = true) :=
  ⟨⟨by norm_num,
    (aggregate_gate_boundary ⟨some (some 5000000), none, none, true⟩ ⟨20454, 0⟩).1
      5000000 rfl (by norm_num)⟩,
   by decide,
   (aggregate_gate_boundary ⟨some (some 2000000), some (some "12/31/2099"), none, true⟩
      ⟨20454, 0⟩).2 rfl (by decide)⟩

/-- C2 counterexample: at premium 10.054 the decision is eligible,
`our_price` is `round(premium * 0.9, 2) = 9.05`, but `savings` is 1.01,
whereas `round(premium - our_price, 2)` — the rounded-price formula the
claim asserts — gives 1.00.  The code computes the savings from the
unrounded discounted price. -/
theorem pricing_savings_counterexample :
    (check_eligibility ⟨some (some 1000000), none, some (some (5027/500)), true⟩
        ⟨0, 0⟩).eligible = true ∧
    (check_eligibility ⟨some (some 1000000), none, some (some (5027/500)), true⟩
        ⟨0, 0⟩).our_price = pyRound2 ((5027/500) * (9/10)) ∧
    (check_eligibility ⟨some (some 1000000), none, some (some (5027/500)), true⟩
        ⟨0, 0⟩).savings ≠
      pyRound2 ((5027/500) -
        (check_eligibility ⟨some (some 1000000), none, some (some (5027/500)), true⟩
          ⟨0, 0⟩).our_price) := by
  have hacc := check_eligible_eq_accept
    ⟨some (some 1000000), none, some (some (5027/500)), true⟩ ⟨0, 0⟩ rfl
  rw [hacc]
  have e1 : (acceptQuote ⟨some (some 1000000), none, some (some (5027/500)), true⟩).our_price
      = 181/20 := by
    simp only [acceptQuote, Option.getD_some]
    norm_num [pyRound2, roundHalfEven]
  have e2 : (acceptQuote ⟨some (some 1000000), none, some (some (5027/500)), true⟩).savings
      = 101/100 := by
    simp only [acceptQuote, Option.getD_some]
    norm_num [pyRound2, roundHalfEven]
  refine ⟨rfl, ?_, ?_⟩
  · rw [e1]; norm_num [pyRound2, roundHalfEven]
  · rw [e1, e2]; norm_num [pyRound2, roundHalfEven]

/-- C2 amended: whenever the decision is eligible,
`our_price == round(premium * 0.9, 2)`, `savings_percent == 10.0`, and
`savings == round(premium - premium * 0.9, 2)` — the savings is rounded
from the difference against the unrounded discounted price, not against the
rounded `our_price`. -/
theorem pricing_postcondition_amended (d : ExtractedData) (now : Now)
    (h : (check_eligibility d now).eligible = true) :
    (check_eligibility d now).our_price = pyRound2 (effPremium d * (9/10)) ∧
    (check_eligibility d now).savings =
      pyRound2 (effPremium d - effPremium d * (9/10)) ∧
    (check_eligibility d now).savings_percent = 10 := by
  rw [check_eligible_eq_accept d now h]
  exact ⟨rfl, rfl, rfl⟩

/-- Witness for the amended C2 at premium 10.054. -/
theorem pricing_postcondition_amended_witness :
    (check_eligibility ⟨some (some 1000000), none, some (some (5027/500)), true⟩
        ⟨0, 0⟩).eligible = true ∧
    ((check_eligibility ⟨some (some 1000000), none, some (some (5027/500)), true⟩
        ⟨0, 0⟩).our_price =
      pyRound2 (effPremium ⟨some (some 1000000), none, some (some (5027/500)), true⟩ * (9/10)) ∧
    (check_eligibility ⟨some (some 1000000), none, some (some (5027/500)), true⟩
        ⟨0, 0⟩).savings =
      pyRound2 (effPremium ⟨some (some 1000000), none, some (some (5027/500)), true⟩ -
        effPremium ⟨some (some 1000000), none, some (some (5027/500)), true⟩ * (9/10)) ∧
    (check_eligibility ⟨some (some 1000000), none, some (some (5027/500)), true⟩
        ⟨0, 0⟩).savings_percent = 10) :=
  ⟨rfl, pricing_postcondition_amended _ _ rfl⟩

/-- C5: when the premium key holds `None` and the decision reaches the
pricing step (is eligible), the fixed fallback premium 3500.0 is used, so
`our_price = 3150.0` and `savings = 350.0`. -/
theorem premium_none_fallback (d : ExtractedData) (now : Now)
    (hp : d.premium = some none) (h : (check_eligibility d now).eligible = true) :
    (check_eligibility d now).our_price = 3150 ∧
    (check_eligibility d now).savings = 350 := by
  rw [check_eligible_eq_accept d now h]
  simp only [acceptQuote, hp, Option.getD_some]
  constructor <;> norm_num [pyRound2, roundHalfEven]

/-- Witness for C5: an eligible record whose premium is `None`. -/
theorem premium_none_fallback_witness :
    (⟨some (some 1500000), none, some none, true⟩ : ExtractedData).premium = some none ∧
    (check_eligibility ⟨some (some 1500000), none, some none, true⟩ ⟨0, 0⟩).eligible = true ∧
    (check_eligibility ⟨some (some 1500000), none, some none, true⟩ ⟨0, 0⟩).our_price = 3150 ∧
    (check_eligibility ⟨some (some 1500000), none, some none, true⟩ ⟨0, 0⟩).savings = 350 :=
  ⟨rfl, rfl,
    (premium_none_fallback ⟨some (some 1500000), none, some none, true⟩ ⟨0, 0⟩ rfl rfl).1,
    (premium_none_fallback ⟨some (some 1500000), none, some none, true⟩ ⟨0, 0⟩ rfl rfl).2⟩

/-- C8: when the aggregate gate passes and the expiration date is present
(non-empty) but fails to parse as `%m/%d/%Y`, the expiry gate is skipped and
the decision proceeds to acceptance/pricing. -/
theorem unparseable_expiry_skipped (d : ExtractedData) (now : Now) (g : ℚ) (s : String)
    (hg : d.general_aggregate.getD (some 0) = some g) (hgt : ¬ 2000000 < g)
    (hs : d.expiration_date.getD none = some s) (hne : s ≠ "")
    (hp : parseDate s = none) :
    check_eligibility d now = acceptQuote d ∧
    (check_eligibility d now).eligible = true := by
  have h : check_eligibility d now = acceptQuote d := by
    simp [check_eligibility, hg, hgt, hs, hne, hp]
  exact ⟨h, by rw [h]; rfl⟩

/-- Witness for C8: a present but malformed expiration date is not
blocking. -/
theorem unparseable_expiry_skipped_witness :
    ((⟨some (some 1000000), some (some "not-a-date"), some (some 2500), true⟩ :
        ExtractedData).general_aggregate.getD (some 0) = some 1000000 ∧
      ¬ (2000000:ℚ) < 1000000 ∧ parseDate "not-a-date" = none) ∧
    (check_eligibility ⟨some (some 1000000), some (some "not-a-date"), some (some 2500), true⟩
        ⟨0, 0⟩).eligible = true :=
  ⟨⟨rfl, by norm_num, by decide⟩,
    (unparseable_expiry_skipped
      ⟨some (some 1000000), some (some "not-a-date"), some (some 2500), true⟩ ⟨0, 0⟩
      1000000 "not-a-date" rfl (by norm_num) rfl (by decide) (by decide)).2⟩

/-- C9: an ineligible decision keeps all pricing fields at their zero
defaults and carries a non-empty reason string (the function is total — a
rejection is a returned record, never an exception). -/
theorem rejection_defaults (d : ExtractedData) (now : Now)
    (h : (check_eligibility d now).eligible = false) :
    (check_eligibility d now).our_price = 0 ∧
    (check_eligibility d now).savings = 0 ∧
    (check_eligibility d now).savings_percent = 0 ∧
    (check_eligibility d now).reason ≠ "" := by
  rcases hga : d.general_aggregate.getD (some 0) with _ | ga
  · simp only [check_eligibility, hga]
    refine ⟨rfl, rfl, rfl, by decide⟩
  · by_cases hgt : ga > 2000000
    · simp only [check_eligibility, hga, hgt, if_true]
      exact ⟨rfl, rfl, rfl, aggregateReason_ne_empty ga⟩
    · rcases hexp : d.expiration_date.getD none with _ | s
      · simp [check_eligibility, hga, hgt, hexp, acceptQuote] at h
      · by_cases hs : s = ""
        · simp [check_eligibility, hga, hgt, hexp, hs, acceptQuote] at h
        · rcases hp : parseDate s with _ | e
          · simp [check_eligibility, hga, hgt, hexp, hs, hp, acceptQuote] at h
          · by_cases hdu : daysUntilExpiry e now < 30
            · simp only [check_eligibility, hga, hgt, if_false, hexp, hs, ne_eq,
                not_false_iff, if_true, hp, hdu]
              exact ⟨rfl, rfl, rfl, expiryReason_ne_empty _⟩
            · simp [check_eligibility, hga, hgt, hexp, hs, hp, hdu, acceptQuote] at h

/-- Witness for C9: the $5,000,000 rejection keeps zero pricing fields. -/
theorem rejection_defaults_witness :
    (check_eligibility ⟨some (some 5000000), none, none, true⟩ ⟨0, 0⟩).eligible = false ∧
    ((check_eligibility ⟨some (some 5000000), none, none, true⟩ ⟨0, 0⟩).our_price = 0 ∧
     (check_eligibility ⟨some (some 5000000), none, none, true⟩ ⟨0, 0⟩).savings = 0 ∧
     (check_eligibility ⟨some (some 5000000), none, none, true⟩ ⟨0, 0⟩).savings_percent = 0 ∧
     (check_eligibility ⟨some (some 5000000), none, none, true⟩ ⟨0, 0⟩).reason ≠ "") :=
  ⟨rfl, rejection_defaults ⟨some (some 5000000), none, none, true⟩ ⟨0, 0⟩ rfl⟩

/-- C10: only an explicit `None` general aggregate triggers the "Unable to
determine" rejection; an entirely absent key is read as 0 by
`.get('general_aggregate', 0)`, so the aggregate gate passes and evaluation
proceeds exactly as for an aggregate of 0. -/
theorem absent_aggregate_passes (ed : Option (Option String)) (pr : Option (Option ℚ))
    (es : Bool) (now : Now) :
    ((check_eligibility ⟨some none, ed, pr, es⟩ now).reason = unableReason ∧
      (check_eligibility ⟨some none, ed, pr, es⟩ now).eligible = false) ∧
    check_eligibility ⟨none, ed, pr, es⟩ now =
      check_eligibility ⟨some (some 0), ed, pr, es⟩ now ∧
    (check_eligibility ⟨none, ed, pr, es⟩ now).reason ≠ unableReason := by
  refine ⟨⟨rfl, rfl⟩, rfl, ?_⟩
  have hgt : ¬ (0:ℚ) > 2000000 := by norm_num
  rcases hexp : ed.getD none with _ | s
  · simp [check_eligibility, hgt, hexp, acceptQuote, acceptReason_ne_unable]
  · by_cases hs : s = ""
    · simp [check_eligibility, hgt, hexp, hs, acceptQuote, acceptReason_ne_unable]
    · rcases hp : parseDate s with _ | e
      · simp [check_eligibility, hgt, hexp, hs, hp, acceptQuote, acceptReason_ne_unable]
      · by_cases hdu : daysUntilExpiry e now < 30
        · simp only [check_eligibility, Option.getD_none, Option.getD_some, hgt, if_false,
            hexp, hs, ne_eq, not_false_iff, if_true, hp, hdu]
          exact expiryReason_ne_unable _
        · simp [check_eligibility, hgt, hexp, hs, hp, hdu, acceptQuote, acceptReason_ne_unable]

/-- Witness for C10 at a concrete record: `None` aggregate is rejected as
undetermined, an absent key behaves as aggregate 0 and proceeds. -/
theorem absent_aggregate_passes_witness :
    ((check_eligibility ⟨some none, none, none, true⟩ ⟨0, 0⟩).reason = unableReason ∧
      (check_eligibility ⟨some none, none, none, true⟩ ⟨0, 0⟩).eligible = false) ∧
    check_eligibility ⟨none, none, none, true⟩ ⟨0, 0⟩ =
      check_eligibility ⟨some (some 0), none, none, true⟩ ⟨0, 0⟩ ∧
    (check_eligibility ⟨none, none, none, true⟩ ⟨0, 0⟩).reason ≠ unableReason :=
  absent_aggregate_passes none none true ⟨0, 0⟩

/-- The sweep returns the first qualifying token's value. -/
theorem sweepLoop_eq_of_first (toks : List (List Char)) :
    ∀ (i : ℕ) (v : ℚ), (toks.get? i).bind qualTok = some v →
      (∀ j, j < i → (toks.get? j).bind qualTok = none) → sweepLoop toks = some v := by
  induction toks with
  | nil => intro i v hv _; simp at hv
  | cons tok rest ih =>
    intro i v hv hj
    cases i with
    | zero =>
      have hv' : qualTok tok = some v := hv
      unfold qualTok at hv'
      cases htv : tokValue tok with
      | none => simp [htv] at hv'
      | some w =>
        simp only [htv] at hv'
        by_cases hr : 1000 ≤ w ∧ w ≤ 10000
        · rw [if_pos hr] at hv'
          obtain rfl : w = v := Option.some.inj hv'
          simp [sweepLoop, htv, hr]
        · rw [if_neg hr] at hv'; exact absurd hv' (by simp)
    | succ i' =>
      have h0 : qualTok tok = none := hj 0 (Nat.succ_pos _)
      have hv' : (rest.get? i').bind qualTok = some v := hv
      have hj' : ∀ j, j < i' → (rest.get? j).bind qualTok = none :=
        fun j hlt => hj (j + 1) (by omega)
      unfold qualTok at h0
      cases htv : tokValue tok with
      | none => simp only [sweepLoop, htv]; exact ih i' v hv' hj'
      | some w =>
        simp only [htv] at h0
        by_cases hr : 1000 ≤ w ∧ w ≤ 10000
        · rw [if_pos hr] at h0; exact absurd h0 (by simp)
        · simp only [sweepLoop, htv, if_neg hr]; exact ih i' v hv' hj'

/-- The sweep returns nothing when no token qualifies. -/
theorem sweepLoop_eq_none (toks : List (List Char))
    (h : ∀ j, (toks.get? j).bind qualTok = none) : sweepLoop toks = none := by
  induction toks with
  | nil => rfl
  | cons tok rest ih =>
    have h0 : qualTok tok = none := h 0
    have h' : ∀ j, (rest.get? j).bind qualTok = none := fun j => h (j + 1)
    unfold qualTok at h0
    cases htv : tokValue tok with
    | none => simp only [sweepLoop, htv]; exact ih h'
    | some w =>
      simp only [htv] at h0
      by_cases hr : 1000 ≤ w ∧ w ≤ 10000
      · rw [if_pos hr] at h0; exact absurd h0 (by simp)
      · simp only [sweepLoop, htv, if_neg hr]; exact ih h'

/-- C7: when every premium cascade pattern fails to produce a parseable
amount, the extractor takes the value of the first currency token in the
inclusive range [1000, 10000], skipping non-qualifying tokens in order of
occurrence; when no token qualifies, no premium is extracted (the preset
default is kept). -/
theorem premium_sweep_first_in_range (text : List Char)
    (h : premiumCascade text = none) :
    (∀ i v, qualAt text i = some v → (∀ j, j < i → qualAt text j = none) →
      extractPremium text = some v) ∧
    ((∀ j, qualAt text j = none) → extractPremium text = none) := by
  have he : extractPremium text = sweepLoop (findAllCurrency text) := by
    simp [extractPremium, h]
  exact ⟨fun i v hv hj => he.trans (sweepLoop_eq_of_first _ i v hv hj),
    fun hall => he.trans (sweepLoop_eq_none _ hall)⟩

/-- Witness for C7: the cascade fails, `$12` is skipped as out of range and
`$2,400` is taken. -/
theorem premium_sweep_first_in_range_witness :
    premiumCascade "fees $12 and $2,400 later".toList = none ∧
    qualAt "fees $12 and $2,400 later".toList 1 = some 2400 ∧
    (∀ j, j < 1 → qualAt "fees $12 and $2,400 later".toList j = none) ∧
    extractPremium "fees $12 and $2,400 later".toList = some 2400 :=
  ⟨by decide, by decide, by decide,
    (premium_sweep_first_in_range _ (by decide)).1 1 2400 (by decide) (by decide)⟩

/-- C4: the expiration cascade tries the two EXP-adjacent patterns, then the
literal `01/01/2026`, then any date-shaped token, stopping at the first
success; so whenever the two EXP patterns fail and the text contains
`01/01/2026`, that literal is extracted — even when a different date-shaped
token occurs earlier in the text. -/
theorem expiration_fallback_masking (text : List Char)
    (h1 : expPat1 text = none) (h2 : expPat2 text = none)
    (h3 : containsLit date2026 text = true) :
    extractExpiration text = some "01/01/2026" := by
  simp only [extractExpiration, h1, h2, h3, if_true]
  rfl

/-- Witness for C4: no EXP-adjacent date, an earlier date-shaped token
`12/31/2024`, and the literal `01/01/2026` later in the text; the literal
masks the earlier date. -/
theorem expiration_fallback_masking_witness :
    expPat1 "issued 12/31/2024 renewal 01/01/2026".toList = none ∧
    expPat2 "issued 12/31/2024 renewal 01/01/2026".toList = none ∧
    containsLit date2026 "issued 12/31/2024 renewal 01/01/2026".toList = true ∧
    anyDate "issued 12/31/2024 renewal 01/01/2026".toList = some "12/31/2024".toList ∧
    extractExpiration "issued 12/31/2024 renewal 01/01/2026".toList = some "01/01/2026" :=
  ⟨by decide, by decide, by decide, by decide,
    expiration_fallback_masking _ (by decide) (by decide) (by decide)⟩

/-- C1 counterexample: with the current instant at noon of 2026-01-01, an
expiration date exactly 30 days ahead (01/31/2026) is rejected by the
expiry gate with a computed count of 29 days, although every other gate
passes — the code subtracts the full `datetime.now()` including the time of
day, so "D + 30 days passes" fails at any instant after midnight. -/
theorem expiry_boundary_counterexample :
    parseDate "01/31/2026" = some (daysFromCivil 2026 1 1 + 30) ∧
    (check_eligibility ⟨some (some 1000000), some (some "01/31/2026"), some (some 2500), true⟩
        ⟨daysFromCivil 2026 1 1, 43200000000⟩).eligible = false ∧
    (check_eligibility ⟨some (some 1000000), some (some "01/31/2026"), some (some 2500), true⟩
        ⟨daysFromCivil 2026 1 1, 43200000000⟩).reason = expiryReason 29 := by
  refine ⟨by decide, by decide, by decide⟩

/-- C1 amended: for a decision whose aggregate gate passes and whose
expiration date parses to day ordinal `e`, with the current instant in day
`D = now.days`: `e = D + 29` is rejected with the computed day count and the
30-day minimum in the reason; `e = D + 30` passes the expiry gate exactly
when the instant is midnight (at any later time of day the computed count
is below 30 and it is rejected); `e = D - 1` (already expired) is
rejected. -/
theorem expiry_gate_boundary_amended (d : ExtractedData) (now : Now) (g : ℚ)
    (s : String) (e : ℤ)
    (hg : d.general_aggregate.getD (some 0) = some g) (hgt : ¬ 2000000 < g)
    (hs : d.expiration_date.getD none = some s) (hne : s ≠ "")
    (hp : parseDate s = some e) :
    (e = now.days + 29 →
      (check_eligibility d now).eligible = false ∧
      daysUntilExpiry e now < 30 ∧
      (check_eligibility d now).reason = expiryReason (daysUntilExpiry e now)) ∧
    (e = now.days + 30 → now.micros = 0 →
      check_eligibility d now = acceptQuote d ∧
      (check_eligibility d now).eligible = true) ∧
    (e = now.days + 30 → 0 < now.micros →
      (check_eligibility d now).eligible = false ∧
      (check_eligibility d now).reason = expiryReason (daysUntilExpiry e now)) ∧
    (e = now.days - 1 →
      (check_eligibility d now).eligible = false ∧
      (check_eligibility d now).reason = expiryReason (daysUntilExpiry e now)) := by
  refine ⟨?_, ?_, ?_, ?_⟩
  · intro he
    have hdu : daysUntilExpiry e now < 30 := daysUntil_lt_30 (by omega)
    refine ⟨?_, hdu, ?_⟩ <;> simp [check_eligibility, hg, hgt, hs, hne, hp, hdu, initResults]
  · intro he hm
    have h30 : daysUntilExpiry e now = 30 := by
      obtain ⟨nd, mic⟩ := now
      simp only at hm he
      subst hm
      exact daysUntil_exact_30 he
    have hdu : ¬ daysUntilExpiry e now < 30 := by omega
    have hacc : check_eligibility d now = acceptQuote d := by
      simp [check_eligibility, hg, hgt, hs, hne, hp, hdu]
    exact ⟨hacc, by rw [hacc]; rfl⟩
  · intro he hm
    have hdu : daysUntilExpiry e now < 30 := daysUntil_lt_30_of_pos_micros he hm
    constructor <;> simp [check_eligibility, hg, hgt, hs, hne, hp, hdu, initResults]
  · intro he
    have hdu : daysUntilExpiry e now < 30 := daysUntil_lt_30 (by omega)
    constructor <;> simp [check_eligibility, hg, hgt, hs, hne, hp, hdu, initResults]

/-- Witness for the amended C1: at midnight of 2026-01-01, an expiry 29
days ahead (01/30/2026) is rejected with the exact day count. -/
theorem expiry_gate_boundary_amended_witness :
    parseDate "01/30/2026" = some (daysFromCivil 2026 1 1 + 29) ∧
    ((check_eligibility ⟨some (some 1000000), some (some "01/30/2026"), some (some 2500), true⟩
        ⟨daysFromCivil 2026 1 1, 0⟩).eligible = false ∧
      daysUntilExpiry (daysFromCivil 2026 1 1 + 29) ⟨daysFromCivil 2026 1 1, 0⟩ < 30 ∧
      (check_eligibility ⟨some (some 1000000), some (some "01/30/2026"), some (some 2500), true⟩
        ⟨daysFromCivil 2026 1 1, 0⟩).reason =
        expiryReason (daysUntilExpiry (daysFromCivil 2026 1 1 + 29)
          ⟨daysFromCivil 2026 1 1, 0⟩)) :=
  ⟨by decide,
    (expiry_gate_boundary_amended
      ⟨some (some 1000000), some (some "01/30/2026"), some (some 2500), true⟩
      ⟨daysFromCivil 2026 1 1, 0⟩ 1000000 "01/30/2026" (daysFromCivil 2026 1 1 + 29)
      rfl (by norm_num) rfl (by decide) (by decide)).1 rfl⟩

/-- A case-insensitively equal copy of a literal strips to the same rest. -/
theorem ciStrip_of_ciEq : ∀ {p v : List Char}, ciEq v p = true → ∀ rest,
    ciStrip p (v ++ rest) = some rest
  | [], [], _, rest => rfl
  | _ :: _, [], h, _ => by simp [ciEq] at h
  | [], _ :: _, h, _ => by simp [ciEq] at h
  | p :: ps, c :: cs, h, rest => by
    simp only [ciEq, Bool.and_eq_true, decide_eq_true_eq] at h
    simp only [List.cons_append, ciStrip, h.1, if_true]
    exact ciStrip_of_ciEq h.2 rest

/-- The scan skips a prefix in which the label matches at no position. -/
theorem gaScan_append_of_no_label (p t : List Char)
    (hp : ∀ i, i < p.length → ciStrip gaLabel ((p ++ t).drop i) = none) :
    gaScan (p ++ t) = gaScan t := by
  induction p with
  | nil => rfl
  | cons c p' ih =>
    have h0 : ciStrip gaLabel (c :: (p' ++ t)) = none := by
      have h1 := hp 0 (by simp)
      simpa using h1
    have hstep : gaScan (c :: (p' ++ t)) = gaScan (p' ++ t) := by
      simp only [gaScan, h0]
    exact hstep.trans (ih fun i hi => by
      have h2 := hp (i + 1) (by simp only [List.length_cons]; omega)
      simpa using h2)

/-- A greedy digit/comma run over the amount stops exactly at the end of the
literal when the following text does not begin with a digit or comma. -/
theorem takeWhile_amount_append (s : List Char)
    (hs : ∀ c, s.head? = some c → isCurrencyChar c = false) :
    ("2,500,000".toList ++ s).takeWhile isCurrencyChar = "2,500,000".toList := by
  cases s with
  | nil => rw [List.append_nil]; decide
  | cons c s' =>
    have hcc : isCurrencyChar c = false := hs c rfl
    have hmain : ("2,500,000".toList ++ (c :: s')).takeWhile isCurrencyChar
        = '2' :: ',' :: '5' :: '0' :: '0' :: ',' :: '0' :: '0' :: '0'
          :: (c :: s').takeWhile isCurrencyChar := rfl
    rw [hmain, List.takeWhile_cons, hcc]
    rfl

/-- C6 counterexample: this text contains the substring
`GENERAL AGGREGATE $2,500,000`, yet the extracted general aggregate is 9.0 —
the single regex captures the first currency token after the first
(case-insensitive) occurrence of the label, so an earlier label/amount pair
wins over the later one the claim describes. -/
theorem ga_extraction_counterexample :
    containsLit "GENERAL AGGREGATE $2,500,000".toList
        "GENERAL AGGREGATE $9 GENERAL AGGREGATE $2,500,000".toList = true ∧
    (extract_coi_data
        "GENERAL AGGREGATE $9 GENERAL AGGREGATE $2,500,000".toList).general_aggregate
      = some (some 9) := by
  exact ⟨by decide, by decide⟩

/-- C6 amended: for every text `p ++ v ++ " $2,500,000" ++ s` in which `v`
is a case variant of `GENERAL AGGREGATE`, the label matches at no position
inside the prefix `p` (this occurrence is the first), and `s` does not begin
with a digit or comma (the greedy token does not extend), the extracted
general aggregate is 2,500,000.0: the label is matched case-insensitively,
the `$` and thousands separators are stripped, and the value parses as a
float. -/
theorem ga_extraction_amended (p v s : List Char)
    (hv : ciEq v gaLabel = true)
    (hp : ∀ i, i < p.length →
      ciStrip gaLabel ((p ++ (v ++ (" $2,500,000".toList ++ s))).drop i) = none)
    (hs : ∀ c, s.head? = some c → isCurrencyChar c = false) :
    (extract_coi_data (p ++ (v ++ (" $2,500,000".toList ++ s)))).general_aggregate
      = some (some 2500000) := by
  have h1 : gaScan (p ++ (v ++ (" $2,500,000".toList ++ s)))
      = gaScan (v ++ (" $2,500,000".toList ++ s)) := gaScan_append_of_no_label _ _ hp
  have h2 : ciStrip gaLabel (v ++ (" $2,500,000".toList ++ s))
      = some (" $2,500,000".toList ++ s) := ciStrip_of_ciEq hv _
  have hrun : ("2,500,000".toList ++ s).takeWhile isCurrencyChar = "2,500,000".toList :=
    takeWhile_amount_append s hs
  have hdollar : dollarIntTokenFrom (" $2,500,000".toList ++ s)
      = some ('$' :: "2,500,000".toList) := by
    have hstep : dollarIntTokenFrom (' ' :: '$' :: ("2,500,000".toList ++ s))
        = (let run := ("2,500,000".toList ++ s).takeWhile isCurrencyChar
           if run.isEmpty then dollarIntTokenFrom ("2,500,000".toList ++ s)
           else some ('$' :: run)) := by
      simp [dollarIntTokenFrom]
    show dollarIntTokenFrom (' ' :: '$' :: ("2,500,000".toList ++ s)) = _
    rw [hstep]
    simp only [hrun]
    rfl
  obtain ⟨c, v', rfl⟩ : ∃ c v', v = c :: v' := by
    cases v with
    | nil => exact absurd hv (by decide)
    | cons a b => exact ⟨a, b, rfl⟩
  have hscan : gaScan ((c :: v') ++ (" $2,500,000".toList ++ s))
      = some ('$' :: "2,500,000".toList) := by
    rw [List.cons_append] at h2
    show gaScan (c :: (v' ++ (" $2,500,000".toList ++ s))) = _
    simp only [gaScan, h2, hdollar]
  have hfull := h1.trans hscan
  have hparse : parseFloat (stripCurrency ('$' :: "2,500,000".toList)) = some 2500000 := by
    decide
  simp only [extract_coi_data, hfull, hparse]

/-- Witness for the amended C6: a mixed-case label after an innocuous
prefix extracts 2,500,000.0. -/
theorem ga_extraction_amended_witness :
    ciEq "General Aggregate".toList gaLabel = true ∧
    (∀ i, i < "Policy COI; ".toList.length →
      ciStrip gaLabel (("Policy COI; ".toList ++ ("General Aggregate".toList ++
        (" $2,500,000".toList ++ " per occurrence".toList))).drop i) = none) ∧
    (extract_coi_data ("Policy COI; ".toList ++ ("General Aggregate".toList ++
        (" $2,500,000".toList ++ " per occurrence".toList)))).general_aggregate
      = some (some 2500000) :=
  ⟨by decide, by decide,
    ga_extraction_amended "Policy COI; ".toList "General Aggregate".toList
      " per occurrence".toList (by decide) (by decide)
      (by intro c hc; cases hc; decide)⟩

end SmartQuote
